import Mathlib

/-!
A shallow embedding of the rx-state library (src/lib/index.ts, with the
watcher facade from the accompanying source file) and proofs about it.

JavaScript values are modelled by the inductive type `JsVal`.  Objects carry
a `ref : Nat` tag modelling their heap identity: the JS `===` operator on
objects compares references, and `Object.assign({}, ...)` allocates a fresh
reference.  Functions that allocate take an explicit `fresh : Nat` parameter
standing for the freshly allocated reference (callers supply a tag distinct
from all live ones, which is what a real allocator guarantees).

Object field lists are association lists in property-insertion order, the
order JavaScript enumerates string-keyed own properties in.
-/

/-- A JavaScript value: `undefined`, `null`, booleans, (integer) numbers,
strings, plain objects (heap reference plus own enumerable properties in
insertion order) and `Date` objects (heap reference plus the represented
instant, as a millisecond timestamp). -/
inductive JsVal where
  | undefined : JsVal
  | null : JsVal
  | bool : Bool → JsVal
  | num : Int → JsVal
  | str : String → JsVal
  | obj : Nat → List (String × JsVal) → JsVal
  | date : Nat → Int → JsVal
deriving Repr

/-- Own enumerable properties of an object, in insertion order. -/
abbrev Fields := List (String × JsVal)

/-- First binding of a key in a field list (JS objects never hold duplicate
keys, so first and only). -/
def getField : Fields → String → Option JsVal
  | [], _ => none
  | (k', v') :: rest, k => if k' = k then some v' else getField rest k

/-- JS property write: replaces the value in place when the key exists
(keeping its position in enumeration order), otherwise appends the key. -/
def setField : Fields → String → JsVal → Fields
  | [], k, v => [(k, v)]
  | (k', v') :: rest, k, v => if k' = k then (k', v) :: rest else (k', v') :: setField rest k v

/-- Models `Object.assign(target, source)` on field lists: writes every property of
`source` into `target`, in order. -/
def objAssign (target source : Fields) : Fields :=
  source.foldl (fun acc kv => setField acc kv.1 kv.2) target

/-- Own enumerable properties of a value: objects expose their fields, every
other value (incl. `Date`, which has no own enumerable properties) exposes
none.  (String index-unpacking by `Object.assign`/`Object.entries` is not
modelled; no code path under verification reaches it.) -/
def fieldsOf : JsVal → Fields
  | .obj _ fields => fields
  | _ => []

/-- JS own-property read `v[k]`: `undefined` when the key is absent or the
value has no own properties.  (Only evaluated where the source guards `v`
truthy.)  Where the prototype chain is load-bearing — the `in` dispatch of
`reducers_` and the every-check of `redMerge` — the chain-aware models
`jsInObject` and `jsMemberEq` below are used instead; in the remaining uses
(`setPropertyIfNotSame`/`setPropertyIfNotEqual`) the guards coincide
extensionally with the program even at prototype-named keys. -/
def getProp : JsVal → String → JsVal
  | .obj _ fields, k => (getField fields k).getD .undefined
  | _, _ => .undefined

/-- JS truthiness: `undefined`, `null`, `false`, `0` and `''` are falsy;
every object (incl. `Date`) is truthy. -/
def isFalsy : JsVal → Bool
  | .undefined => true
  | .null => true
  | .bool b => !b
  | .num n => n == 0
  | .str s => s == ""
  | .obj _ _ => false
  | .date _ _ => false

/-- JS `typeof v === 'object'`: true for plain objects, `Date`s and `null`. -/
def typeofObject : JsVal → Bool
  | .null => true
  | .obj _ _ => true
  | .date _ _ => true
  | _ => false

/-- JS strict equality `===`: primitives by value, objects and dates by
heap reference. -/
def strictEq : JsVal → JsVal → Bool
  | .undefined, .undefined => true
  | .null, .null => true
  | .bool a, .bool b => a == b
  | .num a, .num b => a == b
  | .str a, .str b => a == b
  | .obj r _, .obj q _ => r == q
  | .date r _, .date q _ => r == q
  | _, _ => false

/-- Names of the members every plain object literal inherits from
`Object.prototype`; the JS `in` operator and property reads find these even
when no own property of that name exists. -/
def objectProtoKeys : List String :=
  ["constructor", "hasOwnProperty", "isPrototypeOf", "propertyIsEnumerable",
   "toLocaleString", "toString", "valueOf", "__defineGetter__",
   "__defineSetter__", "__lookupGetter__", "__lookupSetter__", "__proto__"]

/-- Models the JS comparison `state[key] === val` with a prototype-chain
read on a plain-object receiver: an own key compares its value; an absent
own key naming an `Object.prototype` member reads the inherited function
(for `__proto__`, the `Object.prototype` object itself), which is strictly
equal to no value of the `JsVal` universe, so the comparison is false; any
other absent key reads `undefined`.  Receivers other than plain objects
keep the own-property read: the `typeof` guard in `redMerge` and the
claims' object-typed states keep them out of the every-check. -/
def jsMemberEq (state : JsVal) (key : String) (val : JsVal) : Bool :=
  match state with
  | .obj _ fields =>
    match getField fields key with
    | some v => strictEq v val
    | none => if key ∈ objectProtoKeys then false else strictEq .undefined val
  | _ => strictEq (getProp state key) val

/-- Character-level JSON escaping loop (quote and backslash; the claims only
exercise strings without control characters). -/
def escChars : List Char → List Char
  | [] => []
  | c :: rest =>
    (if c = '"' then ['\\', '"'] else if c = '\\' then ['\\', '\\'] else [c]) ++ escChars rest

/-- Minimal JSON string escaping. -/
def jsonEscape (s : String) : String := String.mk (escChars s.data)

/-- Models `Date.prototype.toJSON` (i.e. `toISOString`) as an injective
encoding of the represented instant.  The runtime produces an ISO-8601 UTC
string, which is injective in the millisecond timestamp; only which instants
collide (none) matters to the claims, not the exact text. -/
def dateISO (t : Int) : String := toString t

mutual

/-- Models `JSON.stringify`: `none` models the `undefined` result (for `undefined`
input); object properties whose value is `undefined` are omitted; `Date`s
serialize via `toJSON` to their instant string. -/
def jsonStringify : JsVal → Option String
  | .undefined => none
  | .null => some "null"
  | .bool b => some (cond b "true" "false")
  | .num n => some (toString n)
  | .str s => some ("\"" ++ jsonEscape s ++ "\"")
  | .date _ t => some ("\"" ++ dateISO t ++ "\"")
  | .obj _ fields => some ("\x7b" ++ String.intercalate "," (jsonFieldStrings fields) ++ "\x7d")

/-- Serialized `"key":value` members of an object, skipping
`undefined`-valued properties as `JSON.stringify` does. -/
def jsonFieldStrings : Fields → List String
  | [] => []
  | (k, v) :: rest =>
    match jsonStringify v with
    | none => jsonFieldStrings rest
    | some sv => ("\"" ++ jsonEscape k ++ "\":" ++ sv) :: jsonFieldStrings rest

end

/-- Models `jsonEqual` from src/lib/index.ts line 33:
`JSON.stringify(aa) === JSON.stringify(bb)` (two `undefined` results compare
equal, `undefined` never equals a string). -/
def jsonEqual (aa bb : JsVal) : Bool := jsonStringify aa == jsonStringify bb

example : jsonEqual (.num 1) (.num 1) = true := by
  simp [jsonEqual, jsonStringify]
example : jsonEqual .null .undefined = false := by
  simp [jsonEqual, jsonStringify]
example : jsonEqual (.obj 0 [("a", .num 1)]) (.obj 5 [("a", .num 1)]) = true := by
  simp [jsonEqual, jsonStringify, jsonFieldStrings]
example : jsonEqual (.obj 0 [("a", .num 1)]) (.obj 5 [("a", .num 2)]) = false := by
  simp [jsonEqual, jsonStringify, jsonFieldStrings]
  decide
example : jsonEqual (.date 0 7) (.date 1 7) = true := by
  simp [jsonEqual, jsonStringify]

/-! ## Actions, actors, reducers -/

/-- An `Action<T>` instance: a heap reference (action objects are plain JS
objects, so `{...action}` allocates a new one), its `type` tag and payload. -/
structure ActionV where
  ref : Nat
  type : String
  value : JsVal
deriving Repr

/-- A `ValueReducer<T>`: `(state, value) => state`. -/
abbrev ValueReducer := JsVal → JsVal → JsVal

/-- An `ActionHandlerMap<T>`: JS object mapping action types to handlers,
modelled as an association list (keys unique, insertion order). -/
abbrev HandlerMap := List (String × ValueReducer)

/-- Own-property retrieval `actionTypeToHandler[action.type]` for a
registered handler key (JS object literals hold each key once). -/
def findHandler : HandlerMap → String → Option ValueReducer
  | [], _ => none
  | (k, h) :: rest, t => if k = t then some h else findHandler rest t

/-- Models the JS test `action.type in actionTypeToHandler` on a plain
object literal: true for a registered own key and for every member
inherited from `Object.prototype`. -/
def jsInObject (m : HandlerMap) (t : String) : Bool :=
  (findHandler m t).isSome || decide (t ∈ objectProtoKeys)

/-- Models invoking an inherited `Object.prototype` member — the branch
`actionTypeToHandler[action.type](state, action.value)` takes when
`action.type` passes the `in` test without being a registered own key.
With a plain-object receiver, `toString` and `toLocaleString` return the
tag string `[object Object]`.  The remaining inherited members variously
return values outside the `JsVal` universe or throw a `TypeError`
(`__proto__` reads a non-callable object); no claim exercises them, and
they are abstracted by the `other` argument, over which the theorems
quantify. -/
def objectProtoInvoke (other : String → JsVal → JsVal → JsVal) (key : String)
    (state value : JsVal) : JsVal :=
  if key = "toString" ∨ key = "toLocaleString" then .str "[object Object]"
  else other key state value

/-- Concrete instantiation of the abstracted inherited-member behaviors for
definitions whose dispatched keys never reach them. -/
def protoOtherUnused : String → JsVal → JsVal → JsVal := fun _ state _ => state

/-- Models `reducers_` from src/lib/index.ts lines 99-100:
`actionTypeToHandler && action.type in actionTypeToHandler ?
 actionTypeToHandler[action.type](state, action.value) : state`.
The `Option` models the truthiness guard on the map itself; the `in` test
is the prototype-chain-aware `jsInObject`, and when it passes without a
registered own key the inherited member is invoked (`objectProtoInvoke`). -/
def reducers_ (other : String → JsVal → JsVal → JsVal)
    (actionTypeToHandler : Option HandlerMap) (state : JsVal) (action : ActionV) : JsVal :=
  match actionTypeToHandler with
  | none => state
  | some m =>
    if jsInObject m action.type then
      match findHandler m action.type with
      | some h => h state action.value
      | none => objectProtoInvoke other action.type state action.value
    else state

/-- An `Actor<T>`: the type tag and the `new` constructor (which allocates a
fresh action object, hence the extra `Nat` reference argument). -/
structure ActorV where
  type : String
  mkNew : Nat → JsVal → ActionV

/-- JS truthiness of an array value: a rest parameter is always bound to an
array object (possibly empty), and every object is truthy. -/
def jsArrayTruthy (_segments : List String) : Bool := true

/-- The `(type || ['???']).join('_')` expression from src/lib/index.ts
line 114.  Because the rest parameter `type` is always an array and arrays
are truthy, the right operand of `||` is unreachable. -/
def actorType (segments : List String) : String :=
  String.intercalate "_" (if jsArrayTruthy segments then segments else ["???"])

/-- Models `actor` from src/lib/index.ts lines 113-116. -/
def actor (segments : List String) : ActorV :=
  ⟨actorType segments, fun ref v => ⟨ref, actorType segments, v⟩⟩

/-! ## Reducer primitives -/

/-- Models `setPropertyIfNotSame` from src/lib/index.ts lines 50-51:
`!state || state[key] === value ? state : Object.assign({}, state, {[key]: value})`.
`fresh` is the reference of the object allocated by `Object.assign({}, ...)`. -/
def setPropertyIfNotSame (fresh : Nat) (state : JsVal) (key : String) (value : JsVal) : JsVal :=
  if isFalsy state then state
  else if strictEq (getProp state key) value then state
  else .obj fresh (objAssign (objAssign [] (fieldsOf state)) [(key, value)])

/-- Models `setPropertyIfNotEqual` from src/lib/index.ts lines 58-59: additionally
short-circuits when `jsonEqual(state[key], value)`. -/
def setPropertyIfNotEqual (fresh : Nat) (state : JsVal) (key : String) (value : JsVal) : JsVal :=
  if isFalsy state then state
  else if strictEq (getProp state key) value then state
  else if jsonEqual (getProp state key) value then state
  else .obj fresh (objAssign (objAssign [] (fieldsOf state)) [(key, value)])

/-- Models `redSet` from src/lib/index.ts line 66. -/
def redSet (_state value : JsVal) : JsVal := value

/-- Every `[key, val]` entry of `value` satisfies `state[key] === val`
(the `Object.entries(value).every(...)` test of `redMerge`); the read of
`state[key]` goes through the prototype chain (`jsMemberEq`). -/
def entriesAllSame (state : JsVal) (value : JsVal) : Bool :=
  (fieldsOf value).all (fun kv => jsMemberEq state kv.1 kv.2)

/-- Models `redMerge` from src/lib/index.ts lines 69-77.  `fresh` is the reference
allocated by `Object.assign({}, state, value)`; `fresh + 1` / `fresh + 2`
are the references of the empty objects allocated by `state || {}` /
`value || {}` when the inputs are falsy. -/
def redMerge (fresh : Nat) (state value : JsVal) : JsVal :=
  let st := if isFalsy state then JsVal.obj (fresh + 1) [] else state
  let vl := if isFalsy value then JsVal.obj (fresh + 2) [] else value
  if typeofObject st && typeofObject vl && entriesAllSame st vl then st
  else .obj fresh (objAssign (objAssign [] (fieldsOf st)) (fieldsOf vl))

/-- Models `redMergeProperty_` from src/lib/index.ts lines 80-86 (curried by `key`). -/
def redMergeProperty_ (fresh : Nat) (key : String) (state value : JsVal) : JsVal :=
  let st := if isFalsy state then JsVal.obj (fresh + 3) [] else state
  let nested := getProp st key
  let merged := redMerge (fresh + 1) nested value
  if strictEq nested merged then st
  else .obj fresh (objAssign (objAssign [] (fieldsOf st)) [(key, merged)])

/-! ## The state stream `toState$`

An Observable is modelled by its emission trace: the list of values it
delivers to a subscriber that subscribes at time zero, in delivery order.
`of(init)` emits synchronously at subscription; the actions of the `Subject`
arrive only afterwards, so the `merge` of the two delivers `init` first and
then the scan outputs, in order. -/

/-- Models `scan(reduce, init)`: emits the running fold once per incoming action
(the seed itself is not emitted). -/
def scanList (reduce : JsVal → ActionV → JsVal) : JsVal → List ActionV → List JsVal
  | _, [] => []
  | s, a :: rest => reduce s a :: scanList reduce (reduce s a) rest

/-- Models `distinctUntilChanged()` behind the first element: drop each value that
is `===` to the last value passed downstream. -/
def dedupAux (prev : JsVal) : List JsVal → List JsVal
  | [] => []
  | x :: xs => if strictEq prev x then dedupAux prev xs else x :: dedupAux x xs

/-- Models `distinctUntilChanged()` with the RxJS default comparator `===`: the
first value always passes. -/
def distinctUntilChangedList : List JsVal → List JsVal
  | [] => []
  | x :: xs => x :: dedupAux x xs

/-- Models `of(x)`: emits `x` at subscription and completes. -/
def ofList (x : JsVal) : List JsVal := [x]

/-- Models `merge` of a source whose emissions all happen at subscription with a
source whose emissions all arrive later: simple concatenation. -/
def mergeSeqList (first second : List JsVal) : List JsVal := first ++ second

/-- Models `toState$` from src/lib/index.ts lines 125-126, as the emission trace
seen by a subscriber given the list of actions dispatched after
subscription:
`merge(of(init), action$.pipe(scan(reduce, init))).pipe(distinctUntilChanged())`. -/
def toStateS (actions : List ActionV) (init : JsVal) (reduce : JsVal → ActionV → JsVal) : List JsVal :=
  distinctUntilChangedList (mergeSeqList (ofList init) (scanList reduce init actions))

example :
    toStateS [⟨5, "Inc", .num 1⟩] (.num 0)
      (fun s a => match s, a.value with
        | .num n, .num m => .num (n + m)
        | _, _ => s) =
    [.num 0, .num 1] := rfl

example : toStateS [⟨5, "Nop", .num 1⟩] (.obj 7 [("a", .num 0)]) (fun s _ => s) =
    [.obj 7 [("a", .num 0)]] := rfl

/-! ## The state assembler `assemble$`

`assemble$(base, parts)` (src/lib/index.ts lines 150-159) with a nonempty
`parts` builds `combineLatest([base$, parts$])` where `parts$` is
`merge(...part$s).pipe(scan((acc, val) => Object.assign({}, acc || {}, val || {}), {}))`
and each part stream is mapped to singleton objects `{[key]: v}`; the final
`map` overlays: `Object.assign({}, into, from)`.

The two combined sources are modelled by one interleaved trace of source
emissions in delivery order: a plain-value base or part contributes its
`of(...)` emission at its subscription position (combineLatest subscribes
`base$` first, then the merged parts in `Object.entries` order). -/

/-- One source emission reaching the `combineLatest`: either the base stream
emitted an object (given by its fields) or the part stream registered for
`key` emitted a value. -/
inductive AsmEvent where
  | base : Fields → AsmEvent
  | part : String → JsVal → AsmEvent

/-- The `combineLatest` latch: latest base emission and latest emission of
the scanned parts accumulator, `none` while a source has not emitted yet. -/
structure AsmState where
  base : Option Fields
  parts : Option Fields

/-- The final overlay `Object.assign({}, into, from)`: parts keys win over
same-named base keys. -/
def combinedOf (into from_ : Fields) : Fields :=
  objAssign (objAssign [] into) from_

/-- One step of the assembled pipeline: update the latch and emit the
overlay when both sources have a latest value.  A part emission runs the
scan update `Object.assign({}, acc || {}, {[key]: v})` (the accumulator
seed is `{}` and the singleton wrapper object is always truthy). -/
def asmStep (st : AsmState) (e : AsmEvent) : AsmState × Option Fields :=
  match e with
  | .base v =>
    match st.parts with
    | some p => (⟨some v, some p⟩, some (combinedOf v p))
    | none => (⟨some v, none⟩, none)
  | .part k v =>
    let p' := objAssign (objAssign [] (st.parts.getD [])) [(k, v)]
    match st.base with
    | some b => (⟨some b, some p'⟩, some (combinedOf b p'))
    | none => (⟨st.base, some p'⟩, none)

/-- The emission trace of the assembled stream over a trace of source
emissions. -/
def asmRun (st : AsmState) : List AsmEvent → List Fields
  | [] => []
  | e :: es =>
    match asmStep st e with
    | (st', some out) => out :: asmRun st' es
    | (st', none) => asmRun st' es

example :
    asmRun ⟨none, none⟩
      [.base [("a", .null), ("b", .str "parent")],
       .part "a" (.obj 10 [("a", .num 0), ("b", .str "nested"), ("c", .bool false)])] =
    [[("a", .obj 10 [("a", .num 0), ("b", .str "nested"), ("c", .bool false)]),
      ("b", .str "parent")]] := rfl

/-! ## Store and watcher facade -/

/-- The `map(action => ({...action}))` stage of `StoreImpl.action$`
(src/lib/index.ts line 228): a spread allocates a fresh object (`fresh`)
carrying the same properties. -/
def actionMirror (fresh : Nat) (a : ActionV) : ActionV :=
  ⟨fresh, a.type, a.value⟩

/-- A state getter passed to `RxState.watch`; `Except` models a JS function
that may throw. -/
abbrev RxGetter := JsVal → Except String JsVal

/-- A live watcher as held by `RxState`: its getter and the current value of
its `notify` holder. -/
structure WatcherM where
  getter : RxGetter
  notifyValue : JsVal

/-- Models `RxState.applyGetter`: `let ret = null; try { ret = getter(state) } catch {} return ret`.
A thrown exception is swallowed and the projected value degrades to `null`. -/
def applyGetter (getter : RxGetter) (state : JsVal) : JsVal :=
  match getter state with
  | .ok v => v
  | .error _ => .null

/-- One watcher re-evaluation performed on every state change (the
`this._state$.subscribe` body of `RxState`): recompute the projection and
push it into the holder when it changed (deep compare when both old and new
are objects, `!==` otherwise).  Returns the updated watcher and the emission
(if any); the result type has no error case — the `try/catch` inside
`applyGetter` is the only place a getter exception can go. -/
def watcherStep (state : JsVal) (w : WatcherM) : WatcherM × Option JsVal :=
  let val := applyGetter w.getter state
  let isObject := typeofObject val && typeofObject w.notifyValue
  if (isObject && !jsonEqual val w.notifyValue) || (!isObject && !strictEq val w.notifyValue) then
    (⟨w.getter, val⟩, some val)
  else (w, none)

/-- The initial holder value built by `RxState.watch` for a new getter:
`new BehaviorSubject(this.applyGetter(getter))`. -/
def watchInitValue (getter : RxGetter) (state : JsVal) : JsVal :=
  applyGetter getter state

/-! ## Helper lemmas -/

theorem strictEq_refl (v : JsVal) : strictEq v v = true := by
  cases v <;> simp [strictEq]

theorem strictEq_trans {a b c : JsVal} (hab : strictEq a b = true)
    (hbc : strictEq b c = true) : strictEq a c = true := by
  cases a <;> cases b <;> simp_all [strictEq] <;> cases c <;> simp_all [strictEq]

theorem getField_setField (f : Fields) (k j : String) (v : JsVal) :
    getField (setField f k v) j = if k = j then some v else getField f j := by
  induction f with
  | nil => by_cases h : k = j <;> simp [setField, getField, h]
  | cons kv rest ih =>
    obtain ⟨k', v'⟩ := kv
    by_cases hk : k' = k
    · subst hk
      by_cases hj : k' = j <;> simp [setField, getField, hj]
    · by_cases hj : k' = j
      · have hkj : k ≠ j := fun h => hk (hj.trans h.symm)
        have hjk : ¬ j = k := fun h => hkj h.symm
        simp [setField, getField, hk, hj, hkj, hjk]
      · simp [setField, getField, hk, hj, ih]

theorem getField_eq_none_of_not_mem {f : Fields} {k : String}
    (h : k ∉ f.map Prod.fst) : getField f k = none := by
  induction f with
  | nil => simp [getField]
  | cons kv rest ih =>
    obtain ⟨k', v'⟩ := kv
    simp only [List.map_cons, List.mem_cons] at h
    push_neg at h
    have h1 : ¬ k' = k := fun hh => h.1 hh.symm
    simp [getField, h1, ih h.2]

theorem setField_of_not_mem {f : Fields} {k : String} (v : JsVal)
    (h : k ∉ f.map Prod.fst) : setField f k v = f ++ [(k, v)] := by
  induction f with
  | nil => simp [setField]
  | cons kv rest ih =>
    obtain ⟨k', v'⟩ := kv
    simp only [List.map_cons, List.mem_cons] at h
    push_neg at h
    have h1 : ¬ k' = k := fun hh => h.1 hh.symm
    simp [setField, h1, ih h.2]

theorem mem_keys_setField {f : Fields} {k j : String} {v : JsVal} :
    j ∈ (setField f k v).map Prod.fst ↔ j ∈ f.map Prod.fst ∨ j = k := by
  induction f with
  | nil => simp [setField]
  | cons kv rest ih =>
    obtain ⟨k', v'⟩ := kv
    by_cases hk : k' = k
    · subst hk
      simp [setField]
      tauto
    · simp only [setField, if_neg hk, List.map_cons, List.mem_cons, ih]
      tauto

theorem nodup_keys_setField {f : Fields} {k : String} {v : JsVal}
    (h : (f.map Prod.fst).Nodup) : ((setField f k v).map Prod.fst).Nodup := by
  induction f with
  | nil => simp [setField]
  | cons kv rest ih =>
    obtain ⟨k', v'⟩ := kv
    simp only [List.map_cons, List.nodup_cons] at h
    by_cases hk : k' = k
    · subst hk
      simpa [setField, List.nodup_cons] using h
    · simp only [setField, if_neg hk, List.map_cons, List.nodup_cons]
      refine ⟨fun hmem => ?_, ih h.2⟩
      rcases mem_keys_setField.mp hmem with hin | heq
      · exact h.1 hin
      · exact hk heq

theorem objAssign_cons (tgt : Fields) (k : String) (v : JsVal) (rest : Fields) :
    objAssign tgt ((k, v) :: rest) = objAssign (setField tgt k v) rest := rfl

theorem objAssign_single (tgt : Fields) (k : String) (v : JsVal) :
    objAssign tgt [(k, v)] = setField tgt k v := rfl

theorem objAssign_append_of_disjoint (f : Fields) :
    ∀ acc : Fields,
      (∀ j ∈ f.map Prod.fst, j ∉ acc.map Prod.fst) → (f.map Prod.fst).Nodup →
      objAssign acc f = acc ++ f := by
  induction f with
  | nil => intro acc _ _; simp [objAssign]
  | cons kv rest ih =>
    obtain ⟨k, v⟩ := kv
    intro acc hd hn
    simp only [List.map_cons, List.nodup_cons] at hn
    have hk : k ∉ acc.map Prod.fst := hd k (by simp)
    rw [objAssign_cons, setField_of_not_mem v hk]
    rw [ih (acc ++ [(k, v)]) ?_ hn.2]
    · simp
    · intro j hj
      simp only [List.map_append, List.map_cons, List.map_nil, List.mem_append,
        List.mem_singleton]
      push_neg
      refine ⟨hd j (by simp [hj]), ?_⟩
      intro hjk
      exact hn.1 (hjk ▸ hj)

theorem objAssign_nil_eq_self {f : Fields} (h : (f.map Prod.fst).Nodup) :
    objAssign [] f = f := by
  simpa using objAssign_append_of_disjoint f [] (by simp) h

theorem getField_objAssign (src : Fields) :
    ∀ (tgt : Fields) (j : String), (src.map Prod.fst).Nodup →
      getField (objAssign tgt src) j =
        if (getField src j).isSome then getField src j else getField tgt j := by
  induction src with
  | nil => intro tgt j _; simp [objAssign, getField]
  | cons kv rest ih =>
    obtain ⟨k, v⟩ := kv
    intro tgt j hn
    simp only [List.map_cons, List.nodup_cons] at hn
    rw [objAssign_cons, ih (setField tgt k v) j hn.2]
    by_cases hj : k = j
    · subst hj
      have hnone : getField rest k = none := getField_eq_none_of_not_mem hn.1
      simp [getField, hnone, getField_setField]
    · simp [getField, getField_setField, hj, fun (h : k = j) => hj h]

theorem scanList_append (reduce : JsVal → ActionV → JsVal) (l : List ActionV) :
    ∀ (s : JsVal) (a : ActionV),
      scanList reduce s (l ++ [a]) = scanList reduce s l ++ [reduce (l.foldl reduce s) a] := by
  induction l with
  | nil => intro s a; simp [scanList]
  | cons b rest ih => intro s a; simp [scanList, ih]

theorem getLastD_scanList (reduce : JsVal → ActionV → JsVal) (l : List ActionV) :
    ∀ s : JsVal, (scanList reduce s l).getLastD s = l.foldl reduce s := by
  induction l with
  | nil => intro s; simp [scanList]
  | cons a rest ih =>
    intro s
    show (reduce s a :: scanList reduce (reduce s a) rest).getLastD s =
      List.foldl reduce s (a :: rest)
    rw [List.getLastD_cons, List.foldl_cons]
    exact ih (reduce s a)

theorem dedupAux_suppress : ∀ (l : List JsVal) (prev x : JsVal),
    strictEq (l.getLastD prev) x = true →
    dedupAux prev (l ++ [x]) = dedupAux prev l := by
  intro l
  induction l with
  | nil =>
    intro prev x h
    simp only [List.getLastD] at h
    simp [dedupAux, h]
  | cons y ys ih =>
    intro prev x h
    rw [List.getLastD_cons] at h
    by_cases hpy : strictEq prev y = true
    · simp only [List.cons_append, dedupAux, hpy, if_true]
      cases ys with
      | nil =>
        simp only [List.getLastD] at h
        have hpx : strictEq prev x = true := strictEq_trans hpy h
        simp [dedupAux, hpx]
      | cons z zs =>
        apply ih
        rw [List.getLastD_cons] at h ⊢
        exact h
    · simp only [List.cons_append, dedupAux, hpy, if_false]
      exact congrArg (List.cons y) (ih y x h)

theorem getField_of_mem_nodup {f : Fields} {k : String} {v : JsVal}
    (hn : (f.map Prod.fst).Nodup) (hm : (k, v) ∈ f) : getField f k = some v := by
  induction f with
  | nil => simp at hm
  | cons kv rest ih =>
    obtain ⟨k', v'⟩ := kv
    simp only [List.map_cons, List.nodup_cons] at hn
    rcases List.mem_cons.mp hm with heq | hmem
    · cases heq
      simp [getField]
    · have hne : ¬ k' = k := by
        intro h
        subst h
        exact hn.1 (List.mem_map.mpr ⟨(k', v), hmem, rfl⟩)
      simp [getField, hne, ih hn.2 hmem]

theorem asmRun_emits_combined : ∀ (es : List AsmEvent) (st : AsmState) (out : Fields),
    out ∈ asmRun st es → ∃ b p, out = combinedOf b p := by
  intro es
  induction es with
  | nil =>
    intro st out h
    simp [asmRun] at h
  | cons e rest ih =>
    intro st out h
    cases e with
    | base v =>
      cases hp : st.parts with
      | some p =>
        simp only [asmRun, asmStep, hp] at h
        rcases List.mem_cons.mp h with heq | hmem
        · exact ⟨v, p, heq⟩
        · exact ih _ _ hmem
      | none =>
        simp only [asmRun, asmStep, hp] at h
        exact ih _ _ h
    | part k v =>
      cases hb : st.base with
      | some b =>
        simp only [asmRun, asmStep, hb] at h
        rcases List.mem_cons.mp h with heq | hmem
        · exact ⟨b, _, heq⟩
        · exact ih _ _ hmem
      | none =>
        simp only [asmRun, asmStep, hb] at h
        exact ih _ _ h

/-! ## Claim theorems -/

/-- Claim C4 counterexample: the action type `toString` is not a registered
key of the empty handler map, yet `reducers_` does not pass the state
through — the JS `in` test finds the inherited `Object.prototype.toString`,
which is invoked and returns the tag string, not the state.  (The
`toString` branch of `objectProtoInvoke` does not consult the abstracted
`other` behaviors.) -/
theorem reducers_proto_counterexample :
    findHandler [] "toString" = none
    ∧ reducers_ protoOtherUnused (some []) (.obj 1 []) ⟨0, "toString", .null⟩
        = .str "[object Object]"
    ∧ reducers_ protoOtherUnused (some []) (.obj 1 []) ⟨0, "toString", .null⟩
        ≠ .obj 1 [] :=
  ⟨rfl, rfl, fun h => JsVal.noConfusion h⟩

/-- Claim C4 (amended): if `a.type` is a registered key, `reducers_` returns
`map[a.type](s, a.value)`; for every action whose type is neither a
registered key nor the name of an inherited `Object.prototype` member it
returns `s` itself — the same reference, not a copy; for an unregistered
type naming an inherited member, the inherited member is invoked instead
(for `toString`, yielding the tag string rather than `s`).  Quantified over
the abstracted inherited-member behaviors. -/
theorem reducers_contract (other : String → JsVal → JsVal → JsVal)
    (m : HandlerMap) (s : JsVal) (a : ActionV) :
    (∀ h : ValueReducer, findHandler m a.type = some h →
      reducers_ other (some m) s a = h s a.value)
    ∧ (findHandler m a.type = none → a.type ∉ objectProtoKeys →
        reducers_ other (some m) s a = s)
    ∧ (findHandler m a.type = none → a.type ∈ objectProtoKeys →
        reducers_ other (some m) s a = objectProtoInvoke other a.type s a.value) := by
  refine ⟨?_, ?_, ?_⟩
  · intro h hfind
    simp [reducers_, jsInObject, hfind]
  · intro hfind hproto
    simp [reducers_, jsInObject, hfind, hproto]
  · intro hfind hproto
    simp [reducers_, jsInObject, hfind, hproto]

/-- Witness for C4: an unregistered action type off `Object.prototype`
passes the state through unchanged. -/
theorem reducers_contract_witness :
    findHandler [("X", redSet)] "Y" = none
    ∧ ("Y" : String) ∉ objectProtoKeys
    ∧ reducers_ protoOtherUnused (some [("X", redSet)]) (.obj 1 []) ⟨0, "Y", .num 2⟩
        = .obj 1 [] :=
  ⟨rfl, by decide,
    (reducers_contract protoOtherUnused [("X", redSet)] (.obj 1 []) ⟨0, "Y", .num 2⟩).2.1
      rfl (by decide)⟩

/-- Claim C5 counterexample: at `s = {}` and `v = {toString: undefined}`,
every own key of `v` maps (under the
own-property read, which yields `undefined`) to a `===`-identical value of
`s` — the claim as stated therefore demands `redMerge(s, v) = s` — yet the
program allocates a fresh copy: `state['toString']` reads the inherited
`Object.prototype.toString` function through the prototype chain, which is
not `=== undefined`, so the every-check fails. -/
theorem redMerge_proto_counterexample :
    strictEq (getProp (.obj 1 []) "toString") .undefined = true
    ∧ redMerge 9 (.obj 1 []) (.obj 2 [("toString", .undefined)])
        = .obj 9 [("toString", .undefined)]
    ∧ redMerge 9 (.obj 1 []) (.obj 2 [("toString", .undefined)]) ≠ .obj 1 [] := by
  refine ⟨rfl, rfl, ?_⟩
  intro h
  injection h with h1 _
  exact absurd h1 (by decide)

/-- Claim C5 (amended): for every object state `s`: `redMerge(s, s) = s`
(same reference) and `redMerge(s, {}) = s`; generally `redMerge(s, v) = s`
whenever the program's every-check passes, i.e. every own entry
`[key, val]` of `v` satisfies `state[key] === val` with the read going
through the prototype chain — an own key of `s` compares its value, an
absent own key naming an `Object.prototype` member reads the inherited
member (never strictly equal to a plain value), any other absent key reads
`undefined` (trivially so for zero keys); and absent (`null`/`undefined`)
`state` or `value` is coalesced to a (fresh) empty object. -/
theorem redMerge_identity (fresh : Nat) :
    (∀ (r : Nat) (f : Fields), (f.map Prod.fst).Nodup →
        redMerge fresh (.obj r f) (.obj r f) = .obj r f)
    ∧ (∀ (r q : Nat) (f : Fields), redMerge fresh (.obj r f) (.obj q []) = .obj r f)
    ∧ (∀ (r q : Nat) (f g : Fields),
        entriesAllSame (.obj r f) (.obj q g) = true →
        redMerge fresh (.obj r f) (.obj q g) = .obj r f)
    ∧ (∀ v : JsVal, redMerge fresh .null v = redMerge fresh (.obj (fresh + 1) []) v
        ∧ redMerge fresh .undefined v = redMerge fresh (.obj (fresh + 1) []) v)
    ∧ (∀ s : JsVal, redMerge fresh s .null = redMerge fresh s (.obj (fresh + 2) [])
        ∧ redMerge fresh s .undefined = redMerge fresh s (.obj (fresh + 2) [])) := by
  refine ⟨?_, ?_, ?_, fun v => ⟨rfl, rfl⟩, fun s => ⟨rfl, rfl⟩⟩
  · intro r f hn
    have hall : entriesAllSame (.obj r f) (.obj r f) = true := by
      simp only [entriesAllSame, fieldsOf, List.all_eq_true]
      intro kv hkv
      obtain ⟨k, v⟩ := kv
      have hg : getField f k = some v := getField_of_mem_nodup hn hkv
      simp [jsMemberEq, hg, strictEq_refl]
    simp [redMerge, isFalsy, typeofObject, hall]
  · intro r q f
    simp [redMerge, isFalsy, typeofObject, entriesAllSame, fieldsOf]
  · intro r q f g hall
    simp [redMerge, isFalsy, typeofObject, hall]

/-- Witness for C5: merging a (nodup-keyed) object into itself keeps the
very same object. -/
theorem redMerge_identity_witness :
    (([("a", JsVal.num 0)] : Fields).map Prod.fst).Nodup
    ∧ redMerge 9 (.obj 1 [("a", .num 0)]) (.obj 1 [("a", .num 0)]) = .obj 1 [("a", .num 0)] :=
  ⟨by decide, (redMerge_identity 9).1 1 [("a", .num 0)] (by decide)⟩

/-- Claim C6: `setPropertyIfNotSame(s, k, s[k])` returns `s` itself;
`setPropertyIfNotEqual(s, k, v)` returns `s` itself whenever `v` is
deep-equal (per jsonEqual) to `s[k]`; both return `s` unchanged when `s` is
absent (null/undefined); otherwise each returns a new shallow copy of `s`
(fresh reference) with key `k` replaced. -/
theorem setProperty_identity (fresh : Nat) :
    (∀ (s : JsVal) (k : String), setPropertyIfNotSame fresh s k (getProp s k) = s)
    ∧ (∀ (s : JsVal) (k : String) (v : JsVal), jsonEqual (getProp s k) v = true →
        setPropertyIfNotEqual fresh s k v = s)
    ∧ (∀ (k : String) (v : JsVal),
        setPropertyIfNotSame fresh .null k v = .null
        ∧ setPropertyIfNotSame fresh .undefined k v = .undefined
        ∧ setPropertyIfNotEqual fresh .null k v = .null
        ∧ setPropertyIfNotEqual fresh .undefined k v = .undefined)
    ∧ (∀ (r : Nat) (f : Fields) (k : String) (v : JsVal), (f.map Prod.fst).Nodup →
        strictEq (getProp (.obj r f) k) v = false →
        setPropertyIfNotSame fresh (.obj r f) k v = .obj fresh (setField f k v))
    ∧ (∀ (r : Nat) (f : Fields) (k : String) (v : JsVal), (f.map Prod.fst).Nodup →
        strictEq (getProp (.obj r f) k) v = false →
        jsonEqual (getProp (.obj r f) k) v = false →
        setPropertyIfNotEqual fresh (.obj r f) k v = .obj fresh (setField f k v)) := by
  refine ⟨?_, ?_, fun k v => ⟨rfl, rfl, rfl, rfl⟩, ?_, ?_⟩
  · intro s k
    by_cases hf : isFalsy s = true
    · simp [setPropertyIfNotSame, hf]
    · simp [setPropertyIfNotSame, hf, strictEq_refl]
  · intro s k v hje
    by_cases hf : isFalsy s = true
    · simp [setPropertyIfNotEqual, hf]
    · by_cases hse : strictEq (getProp s k) v = true
      · simp [setPropertyIfNotEqual, hf, hse]
      · simp [setPropertyIfNotEqual, hf, hse, hje]
  · intro r f k v hn hne
    simp only [setPropertyIfNotSame, isFalsy, Bool.false_eq_true, if_false, hne, fieldsOf]
    rw [objAssign_nil_eq_self hn, objAssign_single]
  · intro r f k v hn hne hje
    simp only [setPropertyIfNotEqual, isFalsy, Bool.false_eq_true, if_false, hne, hje, fieldsOf]
    rw [objAssign_nil_eq_self hn, objAssign_single]

/-- Witness for C6: a freshly constructed but content-identical nested value
is not written — the original state reference survives. -/
theorem setProperty_identity_witness :
    jsonEqual (getProp (.obj 1 [("a", .obj 2 [("b", .num 2)])]) "a") (.obj 3 [("b", .num 2)]) = true
    ∧ setPropertyIfNotEqual 9 (.obj 1 [("a", .obj 2 [("b", .num 2)])]) "a" (.obj 3 [("b", .num 2)]) =
        .obj 1 [("a", .obj 2 [("b", .num 2)])] :=
  ⟨by simp [getProp, getField, jsonEqual, jsonStringify, jsonFieldStrings],
    (setProperty_identity 9).2.1 (.obj 1 [("a", .obj 2 [("b", .num 2)])]) "a" (.obj 3 [("b", .num 2)])
      (by simp [getProp, getField, jsonEqual, jsonStringify, jsonFieldStrings])⟩

/-- Quoted JSON encodings coincide only when their bodies do. -/
theorem string_quote_cancel {a b : String} (h : "\"" ++ a ++ "\"" = "\"" ++ b ++ "\"") :
    a = b := by
  obtain ⟨la⟩ := a
  obtain ⟨lb⟩ := b
  have hd := congrArg String.data h
  simp [String.data_append] at hd
  exact congrArg String.mk hd

/-- Claim C7 counterexample: with no segments, `actor`'s type is the empty
string, not the `'???'` placeholder — the rest parameter is always a
(truthy) array, so `type || ['???']` never takes its right branch. -/
theorem actor_no_segments_counterexample :
    (actor []).type = "" ∧ (actor []).type ≠ "???" := by
  constructor
  · rfl
  · decide

/-- Claim C7 (amended): the actor's type is the segments joined in order
with `'_'` — for no segments that join is the empty string (the `'???'`
placeholder in the source is unreachable) — and `new(v)` builds the action
`{type: actor.type, value: v}`. -/
theorem actor_contract :
    (∀ segments : List String, (actor segments).type = String.intercalate "_" segments)
    ∧ (actor []).type = ""
    ∧ (∀ (segments : List String) (ref : Nat) (v : JsVal),
        (actor segments).mkNew ref v = ⟨ref, (actor segments).type, v⟩) :=
  ⟨fun _ => rfl, rfl, fun _ _ _ => rfl⟩

/-- Claim C8 counterexample: two `Date` objects representing different
instants (timestamps 0 and 1) are not `jsonEqual` — their serialized
encodings differ, contradicting "equal regardless of the moments". -/
theorem jsonEqual_dates_counterexample :
    jsonEqual (.date 0 0) (.date 1 1) = false := by
  simp only [jsonEqual, jsonStringify]
  decide

/-- Claim C8 (amended): `jsonEqual(a, b)` is true iff the canonical
serialized encodings of `a` and `b` are identical; two `Date` objects
compare equal exactly when they encode the same instant — same-moment dates
are equal regardless of reference (as the unit test checks), dates with
different instant encodings are not. -/
theorem jsonEqual_contract :
    (∀ a b : JsVal, jsonEqual a b = true ↔ jsonStringify a = jsonStringify b)
    ∧ (∀ (r q : Nat) (t : Int), jsonEqual (.date r t) (.date q t) = true)
    ∧ (∀ (r q : Nat) (t u : Int), dateISO t ≠ dateISO u →
        jsonEqual (.date r t) (.date q u) = false) := by
  refine ⟨fun a b => ?_, fun r q t => ?_, fun r q t u h => ?_⟩
  · simp [jsonEqual]
  · simp [jsonEqual, jsonStringify]
  · simp only [jsonEqual, jsonStringify]
    rw [beq_eq_false_iff_ne]
    intro heq
    exact h (string_quote_cancel (Option.some.inj heq))

/-- Witness for C8: the dates at timestamps 2 and 3 have different
encodings, hence are not `jsonEqual`. -/
theorem jsonEqual_contract_witness :
    dateISO 2 ≠ dateISO 3 ∧ jsonEqual (.date 0 2) (.date 1 3) = false :=
  ⟨by decide, jsonEqual_contract.2.2 0 1 2 3 (by decide)⟩

/-- Claim C2: for every init, reducer and action sequence, `toState$` emits
`init` synchronously as its first value; thereafter it is the
distinct-until-changed cumulative scan of `reduce` over the actions; and an
action whose reduction is `===` to the current state produces no new
emission. -/
theorem toState_contract (actions : List ActionV) (init : JsVal)
    (reduce : JsVal → ActionV → JsVal) :
    (toStateS actions init reduce).head? = some init
    ∧ toStateS actions init reduce
        = distinctUntilChangedList (init :: scanList reduce init actions)
    ∧ (∀ a : ActionV,
        strictEq (actions.foldl reduce init) (reduce (actions.foldl reduce init) a) = true →
        toStateS (actions ++ [a]) init reduce = toStateS actions init reduce) := by
  refine ⟨rfl, rfl, ?_⟩
  intro a h
  show distinctUntilChangedList (init :: scanList reduce init (actions ++ [a]))
    = distinctUntilChangedList (init :: scanList reduce init actions)
  rw [scanList_append]
  show init :: dedupAux init (scanList reduce init actions ++ [reduce (actions.foldl reduce init) a])
    = init :: dedupAux init (scanList reduce init actions)
  rw [dedupAux_suppress (scanList reduce init actions) init _ (by rw [getLastD_scanList]; exact h)]

/-- Witness for C2: a reducer returning the current state reference adds no
emission. -/
theorem toState_contract_witness :
    strictEq (List.foldl (fun s (_ : ActionV) => s) (.obj 3 []) []) (.obj 3 []) = true
    ∧ toStateS [⟨0, "T", .null⟩] (.obj 3 []) (fun s _ => s)
        = toStateS [] (.obj 3 []) (fun s _ => s) :=
  ⟨rfl, (toState_contract [] (.obj 3 []) (fun s _ => s)).2.2 ⟨0, "T", .null⟩ rfl⟩

/-- Claim C1: assembling base `{a: null, b: 'parent'}` with a part stream
for key `'a'` seeded with `{a: 0, b: 'nested', c: false}` emits
`{a: {a: 0, b: 'nested', c: false}, b: 'parent'}` as its first (and here
only) value; moreover every assembled emission is the overlay
`Object.assign({}, base, parts)` in which a key present in the parts
accumulator overrides the same-named base key. -/
theorem assemble_parts_override :
    asmRun ⟨none, none⟩
      [.base [("a", .null), ("b", .str "parent")],
       .part "a" (.obj 10 [("a", .num 0), ("b", .str "nested"), ("c", .bool false)])] =
      [[("a", .obj 10 [("a", .num 0), ("b", .str "nested"), ("c", .bool false)]),
        ("b", .str "parent")]]
    ∧ (∀ (es : List AsmEvent) (st : AsmState) (out : Fields),
        out ∈ asmRun st es → ∃ b p, out = combinedOf b p)
    ∧ (∀ (b p : Fields) (k : String), (p.map Prod.fst).Nodup →
        (getField p k).isSome → getField (combinedOf b p) k = getField p k) := by
  refine ⟨rfl, asmRun_emits_combined, ?_⟩
  intro b p k hn hsome
  rw [combinedOf, getField_objAssign p (objAssign [] b) k hn, if_pos hsome]

/-- Witness for C1: a parts key shadows the equally-named base key in the
overlay. -/
theorem assemble_parts_override_witness :
    (([("a", JsVal.num 1)] : Fields).map Prod.fst).Nodup
    ∧ getField (combinedOf [("a", .null)] [("a", .num 1)]) "a"
        = getField [("a", JsVal.num 1)] "a" :=
  ⟨by decide,
    assemble_parts_override.2.2 [("a", .null)] [("a", .num 1)] "a" (by decide) (by decide)⟩

/-- Nested initial state of the assembly example:
`{a: 0, b: 'nested', c: false}` (heap ref 10). -/
def nestedInitC3 : JsVal := .obj 10 [("a", .num 0), ("b", .str "nested"), ("c", .bool false)]

/-- Parent initial state of the assembly example: `{a: null, b: 'parent'}`
(heap ref 11). -/
def parentInitC3 : JsVal := .obj 11 [("a", .null), ("b", .str "parent")]

/-- The dispatched action `{type: 'ActMerge', value: {a: 1}}` (action object
ref 12, payload object ref 13). -/
def actMergeC3 : ActionV := ⟨12, "ActMerge", .obj 13 [("a", .num 1)]⟩

/-- The nested reducer registry: `{'ActMerge': redMerge}` (the merge result
object, if allocated, gets ref 20). -/
def redNestedC3 : JsVal → ActionV → JsVal :=
  reducers_ protoOtherUnused (some [("ActMerge", redMerge 20)])

/-- The parent reducer registry: `{'ActSetB': redSetPropertyIfNotSame_('b')}`
(a fresh copy, if allocated, gets ref 21). -/
def redParentC3 : JsVal → ActionV → JsVal :=
  reducers_ protoOtherUnused (some [("ActSetB", fun s v => setPropertyIfNotSame 21 s "b" v)])

/-- The interleaved source-emission trace of the shared-action assembly:
`combineLatest` subscribes the parent state stream first (it emits its init
synchronously), then the merged part streams (the nested stream emits its
init); the dispatch is then delivered to the subscribers of the shared
subject in subscription order, each branch contributing its
post-subscription emissions. -/
def traceC3 : List AsmEvent :=
  [.base (fieldsOf parentInitC3), .part "a" nestedInitC3]
  ++ ((toStateS [actMergeC3] parentInitC3 redParentC3).drop 1).map (fun st => .base (fieldsOf st))
  ++ ((toStateS [actMergeC3] nestedInitC3 redNestedC3).drop 1).map (AsmEvent.part "a")

/-- Claim C3: dispatching `{type: 'ActMerge', value: {a: 1}}` into the
shared-action assembly updates only the nested `a` field — the second
assembled emission keeps `b: 'parent'` and the nested `b: 'nested'`,
`c: false` untouched; and in general a part emission for key `k` leaves
every other key of the combined value unchanged (the base latch and all
other latched part keys are untouched). -/
theorem assemble_nested_dispatch :
    asmRun ⟨none, none⟩ traceC3 =
      [[("a", nestedInitC3), ("b", .str "parent")],
       [("a", .obj 20 [("a", .num 1), ("b", .str "nested"), ("c", .bool false)]),
        ("b", .str "parent")]]
    ∧ (∀ (b p : Fields) (k : String) (v : JsVal) (j : String), j ≠ k →
        (p.map Prod.fst).Nodup →
        getField (combinedOf b (objAssign (objAssign [] p) [(k, v)])) j =
          getField (combinedOf b p) j) := by
  constructor
  · rfl
  · intro b p k v j hj hn
    have hq : objAssign (objAssign [] p) [(k, v)] = setField p k v := by
      rw [objAssign_nil_eq_self hn, objAssign_single]
    have hkj : ¬ k = j := fun h => hj h.symm
    rw [hq, combinedOf, combinedOf,
      getField_objAssign (setField p k v) (objAssign [] b) j (nodup_keys_setField hn),
      getField_objAssign p (objAssign [] b) j hn, getField_setField]
    simp [hkj]

/-- Witness for C3: a part emission for key `'a'` does not disturb the
combined value at key `'b'`. -/
theorem assemble_nested_dispatch_witness :
    ("b" : String) ≠ "a"
    ∧ getField (combinedOf [("b", JsVal.str "x")]
          (objAssign (objAssign [] [("a", JsVal.num 0)]) [("a", JsVal.num 1)])) "b"
        = getField (combinedOf [("b", JsVal.str "x")] [("a", JsVal.num 0)]) "b" :=
  ⟨by decide,
    assemble_nested_dispatch.2 [("b", .str "x")] [("a", .num 0)] "a" (.num 1) "b"
      (by decide) (by decide)⟩

/-- Claim C9: an exception thrown by a registered getter is caught inside
the facade: the projected value degrades to null (both for the initial
holder value built by `watch` and for `applyGetter` itself), and the
state-change re-evaluation step for such a watcher is a total, error-free
computation that either emits nothing or emits null — the exception never
propagates to the caller of `watch` or to the propagation loop. -/
theorem watch_getter_exception_contract (s : JsVal) (w : WatcherM) (e : String)
    (herr : w.getter s = .error e) :
    applyGetter w.getter s = .null
    ∧ watchInitValue w.getter s = .null
    ∧ ((watcherStep s w).2 = none ∨ (watcherStep s w).2 = some .null) := by
  have hnull : applyGetter w.getter s = .null := by simp [applyGetter, herr]
  refine ⟨hnull, hnull, ?_⟩
  simp only [watcherStep, hnull]
  split_ifs
  · right
    rfl
  · left
    rfl

/-- A getter that always throws. -/
def throwingGetter : RxGetter := fun _ => .error "boom"

/-- Witness for C9: the throwing getter degrades to null and the
re-evaluation step pushes null (the previous holder value was a number, so
the `!==` branch fires). -/
theorem watch_getter_exception_witness :
    throwingGetter .null = .error "boom"
    ∧ applyGetter throwingGetter .null = .null
    ∧ ((watcherStep .null ⟨throwingGetter, .num 5⟩).2 = none
        ∨ (watcherStep .null ⟨throwingGetter, .num 5⟩).2 = some .null) :=
  ⟨rfl, (watch_getter_exception_contract .null ⟨throwingGetter, .num 5⟩ "boom" rfl).1,
    (watch_getter_exception_contract .null ⟨throwingGetter, .num 5⟩ "boom" rfl).2.2⟩

/-- Claim C10: the store's `action$` mirror delivers a fresh shallow copy of
each dispatched action: same `type` string, reference-identical `value`, but
never the dispatched object itself (the spread `{...action}` allocates a new
reference, hence `fresh` distinct from the dispatched action's). -/
theorem action_mirror_contract (fresh : Nat) (a : ActionV) (hfresh : fresh ≠ a.ref) :
    (actionMirror fresh a).type = a.type
    ∧ (actionMirror fresh a).value = a.value
    ∧ (actionMirror fresh a).ref ≠ a.ref :=
  ⟨rfl, rfl, hfresh⟩

/-- Witness for C10: mirroring a concrete action keeps type and payload but
yields a different object reference. -/
theorem action_mirror_contract_witness :
    (7 : Nat) ≠ (3 : Nat)
    ∧ ((actionMirror 7 ⟨3, "SET", .num 1⟩).type = "SET"
        ∧ (actionMirror 7 ⟨3, "SET", .num 1⟩).value = .num 1
        ∧ (actionMirror 7 ⟨3, "SET", .num 1⟩).ref ≠ 3) :=
  ⟨by decide, action_mirror_contract 7 ⟨3, "SET", .num 1⟩ (by decide)⟩
